import Mathlib

/-!
Verification of the natural-language-to-chart pipeline of `ai_charts.py`
(`infer_spec_via_openai` response handling, `_apply_filters`, `_aggregate`,
the inline spec resolution and ranking of `render_chart`).

The embedding models a pandas DataFrame as a `Table`: a list of column
names plus a list of rows, each row an association list from column name to
cell value.  Cell values and filter operands are modelled by `Scalar` and
`Val`: a cell is a scalar (integer, rational, string, or null/NaN), a filter
operand is a scalar or a flat list of scalars, which is exactly the operand
domain of the chart-spec JSON shape (scalar, set of scalars, or `[a, b]`
pair).  Python/pandas semantics that the model fixes:

* `NaN` (modelled `sNull`) compares unequal to everything under `==`, but
  `Series.isin` treats NaN as matching NaN; ordered comparisons between NaN
  and a number are defined and false, while comparisons between values of
  incompatible types (string vs number, list vs scalar) raise, modelled as
  `none` of `cmpGE`.
* `str.contains(pat, case=False, na=False)` treats `pat` as a regular
  expression.  The model implements the fragment of Python regexes
  consisting of literal characters and the `.` wildcard (`matchHere`,
  `regexSearchL`); every theorem whose domain includes a `contains`
  predicate restricts the operand to patterns on which this fragment
  agrees with Python (no regex metacharacters beyond the modelled dot —
  `noMetaOperand`), which also rules out the `re.error` raise on invalid
  patterns.  Likewise, the filter model is total while the source can
  raise inside the filter loop (which runs before the unknown-x check):
  theorems quantifying over filters carry a `wfFilterB` or `filterNoRaise`
  hypothesis confining them to the exception-free fragment.
* `groupby(group_cols, dropna=False).size()` keeps null keys as their own
  group; the model emits groups in first-appearance order while pandas
  sorts group keys — every property proved here is invariant under group
  order.  pandas rejects an empty group-key list (`ValueError`), modelled
  by `ChartError.noGroupKeys`.
* `sort_values(ycol, ascending=False)` is modelled by an insertion sort on
  a total preorder of cell values in which null sorts below every number,
  matching the `na_position` default for the numeric value columns the
  pipeline sorts; string cells are mutually tie-ordered (the pipeline never
  ranks by a string measure).
* Python truthiness of the spec fields (`spec.get(..) or default`, and
  `[c for c in [x, color] if c]`) is modelled explicitly: `None` and the
  empty string are falsy.
-/

/-- A cell value of the tabular store: integer, rational (arising from the
`avg` reducer), string, or null/NaN. -/
inductive Scalar where
  | sInt (n : Int)
  | sRat (q : ℚ)
  | sStr (s : String)
  | sNull
deriving DecidableEq

/-- A filter operand: a scalar or a flat list of scalars (the JSON shape of
`filters[].value` is a scalar, a set of scalars, or a two-element pair). -/
inductive Val where
  | atom (a : Scalar)
  | vList (l : List Scalar)
deriving DecidableEq

/-- A table row: association list from column name to cell value. -/
abbrev Row := List (String × Scalar)

/-- An in-memory columnar table (rows × named columns). -/
structure Table where
  cols : List String
  rows : List Row
deriving DecidableEq

/-- Cell lookup `row[col]`; a name missing from the row reads as null. -/
def getCell (r : Row) (c : String) : Scalar :=
  match r.find? (fun p => p.1 == c) with
  | some p => p.2
  | none => Scalar.sNull

/-- A raw filter predicate `{column, op, value}` as produced by the language
model; any key may be absent (`f.get(...)` returning `None`). -/
structure FilterPred where
  column : Option String
  op : Option String
  value : Val
deriving DecidableEq

/-- Python `str()` of a scalar cell: `str(nan) = "nan"` (what
`astype(str)` produces for a NaN cell), integers and strings verbatim.
Rationals only arise in aggregated output, which is never filtered, so
their rendering is irrelevant to the pipeline. -/
def pyStrScalar : Scalar → String
  | .sInt n => toString n
  | .sRat q => toString q
  | .sStr s => s
  | .sNull => "nan"

/-- The single-quote character, used by Python `repr` of strings. -/
def squote : Char := Char.ofNat 39

/-- Python `repr` of a scalar, as used for elements inside `str` of a list. -/
def pyReprScalar : Scalar → String
  | .sStr s => String.singleton squote ++ s ++ String.singleton squote
  | v => pyStrScalar v

/-- Python `str(value)` of a filter operand (`str(val)` in the `contains`
branch of `_apply_filters`). -/
def pyStr : Val → String
  | .atom a => pyStrScalar a
  | .vList l => "[" ++ ", ".intercalate (l.map pyReprScalar) ++ "]"

/-- pandas `==` between a cell and a scalar operand: NaN equals nothing
(including NaN), values of distinct types are unequal, numbers compare by
value. -/
def scalarEq : Scalar → Scalar → Bool
  | .sNull, _ => false
  | _, .sNull => false
  | .sInt a, .sInt b => a == b
  | .sInt a, .sRat q => decide ((a : ℚ) = q)
  | .sRat p, .sInt b => decide (p = (b : ℚ))
  | .sRat p, .sRat q => p == q
  | .sStr s, .sStr t => s == t
  | _, _ => false

/-- Membership test of `Series.isin`: same as `==` except that NaN matches
NaN. -/
def isinEq (cell v : Scalar) : Bool :=
  match cell, v with
  | .sNull, .sNull => true
  | cell, v => scalarEq cell v

/-- A scalar operand is treated by `isin` as the singleton list
(`if not isinstance(val, list): val = [val]`). -/
def toListVal : Val → List Scalar
  | .vList l => l
  | .atom a => [a]

/-- Ordered comparison `cell >= bound` of pandas, partial: `none` models a
raising comparison (incompatible types), `some b` a defined comparison.
NaN compared with a number is defined and false in both directions. -/
def cmpGE : Scalar → Scalar → Option Bool
  | .sInt a, .sInt b => some (decide (b ≤ a))
  | .sInt a, .sRat q => some (decide (q ≤ (a : ℚ)))
  | .sRat p, .sInt b => some (decide ((b : ℚ) ≤ p))
  | .sRat p, .sRat q => some (decide (q ≤ p))
  | .sNull, .sInt _ => some false
  | .sNull, .sRat _ => some false
  | .sInt _, .sNull => some false
  | .sRat _, .sNull => some false
  | .sNull, .sNull => some false
  | .sStr s, .sStr t => some (decide (t ≤ s))
  | _, _ => none

/-- Python tuple unpacking `a, b = val`: succeeds on a two-element list and
on a two-character string (a string iterates over its characters);
everything else raises. -/
def unpack2 : Val → Option (Scalar × Scalar)
  | .vList [a, b] => some (a, b)
  | .atom (.sStr s) =>
    match s.data with
    | [c1, c2] => some (.sStr (String.singleton c1), .sStr (String.singleton c2))
    | _ => none
  | _ => none

/-- Character-wise lowercase (Python ASCII case folding, as applied by
`case=False`). -/
def lowerL (l : List Char) : List Char := l.map Char.toLower

/-- Matcher for the modelled regex fragment: the pattern matches at the
head of the text, `.` matching any single character. -/
def matchHere : List Char → List Char → Bool
  | [], _ => true
  | _ :: _, [] => false
  | p :: ps, c :: cs => (p == '.' || p == c) && matchHere ps cs

/-- `re.search` for the modelled fragment: the pattern matches at some
position of the text. -/
def regexSearchL (p s : List Char) : Bool :=
  (List.range (s.length + 1)).any (fun i => matchHere p (s.drop i))

/-- `str.contains(pat, case=False)`: case-insensitive regex search of the
operand text in the cell text. -/
def containsCI (pat s : String) : Bool :=
  regexSearchL (lowerL pat.data) (lowerL s.data)

/-- The metacharacters of Python regular expressions. -/
def isRegexMeta (c : Char) : Bool :=
  c == '.' || c == '^' || c == Char.ofNat 36 || c == Char.ofNat 42 ||
    c == '+' || c == '?' || c == Char.ofNat 123 || c == Char.ofNat 125 ||
    c == '[' || c == ']' || c == '(' || c == ')' || c == '|' || c == Char.ofNat 92

/-- The case-folded text of an operand contains no regex metacharacter.
On such operands `str.contains` cannot raise `re.error` and its regex
semantics coincides with the literal substring test, so this is the
fragment on which the modelled `containsCI` is exact. -/
def noMetaOperand (v : Val) : Bool :=
  (lowerL (pyStr v).data).all (fun ch => !(isRegexMeta ch))

/-- One iteration of the `for f in filters` loop of `_apply_filters`
(ai_charts.py lines 67-86): unknown/absent column and unrecognized op are
no-ops, `between` silently skips when unpacking or a comparison raises.
The model is total, so two raising paths of the source are outside its
faithful fragment and every theorem quantifying over filters carries a
hypothesis (`wfFilterB`, `filterNoRaise`) excluding them: an `eq` branch
with a list operand (pandas raises a length-mismatch `ValueError`, or
broadcasts elementwise, where the model selects nothing) and a `contains`
branch whose operand contains regex metacharacters (`str.contains` may
raise `re.error` or apply regex semantics, where the model reads the
metacharacters other than the dot literally). -/
def applyOneFilter (out : Table) (f : FilterPred) : Table :=
  match f.column, f.op with
  | some col, some op =>
    if col ∈ out.cols then
      if op = "eq" then
        ⟨out.cols, out.rows.filter (fun r =>
          match f.value with
          | .atom a => scalarEq (getCell r col) a
          | .vList _ => false)⟩
      else if op = "in" then
        ⟨out.cols, out.rows.filter (fun r =>
          (toListVal f.value).any (fun v => isinEq (getCell r col) v))⟩
      else if op = "contains" then
        ⟨out.cols, out.rows.filter (fun r =>
          containsCI (pyStr f.value) (pyStrScalar (getCell r col)))⟩
      else if op = "between" then
        match unpack2 f.value with
        | none => out
        | some (a, b) =>
          if out.rows.all (fun r =>
              (cmpGE (getCell r col) a).isSome && (cmpGE b (getCell r col)).isSome) then
            ⟨out.cols, out.rows.filter (fun r =>
              ((cmpGE (getCell r col) a).getD false) && ((cmpGE b (getCell r col)).getD false))⟩
          else out
      else out
    else out
  | _, _ => out

/-- `_apply_filters` (ai_charts.py lines 63-87): fold the predicates over
the table; an empty predicate list returns the input. -/
def _apply_filters (df : Table) (filters : List FilterPred) : Table :=
  filters.foldl applyOneFilter df

/-- Python truthiness filter of `[c for c in [x, color] if c]`
(ai_charts.py lines 91, 95): `None` and `""` are dropped. -/
def truthyKeep : Option String → Option String
  | some s => if s = "" then none else some s
  | none => none

/-- The group-key columns of `_aggregate`. -/
def group_cols_of (x color : Option String) : List String :=
  [x, color].filterMap truthyKeep

/-- Validation and aggregation failures of the pipeline: `UnknownColumn` is
the `ValueError` of render_chart line 125, `noGroupKeys` the `ValueError`
pandas raises for `groupby([])`. -/
inductive ChartError where
  | unknownColumn (c : String)
  | noGroupKeys
deriving DecidableEq

/-- The group key of a row: the tuple of its cells at the group columns. -/
def keyOf (gcols : List String) (r : Row) : List Scalar :=
  gcols.map (getCell r)

/-- One row of `reset_index(name=ycol)` output: group-key cells followed by
the reduced value column. -/
def mkGroupRow (gcols : List String) (ycol : String) (k : List Scalar) (v : Scalar) : Row :=
  gcols.zip k ++ [(ycol, v)]

/-- `df.groupby(group_cols, dropna=False).size().reset_index(name="Count")`
(ai_charts.py line 92): one output row per distinct key (null keys kept as
their own group), carrying the number of input rows with that key.  Groups
appear in first-appearance order; pandas sorts keys, but every property
proved below is order-invariant. -/
def countAggregate (df : Table) (gcols : List String) : Table :=
  let ks := df.rows.map (keyOf gcols)
  ⟨gcols ++ ["Count"],
   ks.dedup.map (fun k => mkGroupRow gcols "Count" k (.sInt (ks.count k)))⟩

/-- Numeric view of a cell for the `sum`/`avg`/`max`/`min` reducers
(pandas skips nulls; non-numeric measure cells are outside the modelled
scope). -/
def toQ : Scalar → Option ℚ
  | .sInt n => some (n : ℚ)
  | .sRat q => some q
  | _ => none

/-- `sum()` per group: null cells skipped, empty sum is 0. -/
def sumReduce (vals : List Scalar) : Scalar := .sRat ((vals.filterMap toQ).sum)

/-- `mean()` per group: null cells skipped, an all-null group reduces to
null. -/
def meanReduce (vals : List Scalar) : Scalar :=
  let qs := vals.filterMap toQ
  if qs.isEmpty then .sNull else .sRat (qs.sum / qs.length)

/-- `max()` per group, skipping nulls. -/
def maxReduce (vals : List Scalar) : Scalar :=
  match (vals.filterMap toQ).max? with
  | some q => .sRat q
  | none => .sNull

/-- `min()` per group, skipping nulls. -/
def minReduce (vals : List Scalar) : Scalar :=
  match (vals.filterMap toQ).min? with
  | some q => .sRat q
  | none => .sNull

/-- The measure cells of one group. -/
def valsOfKey (df : Table) (gcols : List String) (y : String) (k : List Scalar) : List Scalar :=
  (df.rows.filter (fun r => keyOf gcols r == k)).map (fun r => getCell r y)

/-- `df.groupby(group_cols, dropna=False)[y].<red>().reset_index(name=y)`. -/
def reduceAggregate (df : Table) (gcols : List String) (y : String)
    (red : List Scalar → Scalar) : Table :=
  let ks := df.rows.map (keyOf gcols)
  ⟨gcols ++ [y],
   ks.dedup.map (fun k => mkGroupRow gcols y k (red (valsOfKey df gcols y k)))⟩

/-- `_aggregate` (ai_charts.py lines 89-108).  Every branch calls
`groupby(group_cols, ...)`, which raises when the key list is empty, so the
emptiness test is hoisted to the front.  Returns the aggregated table and
the name of the value column actually used. -/
def _aggregate (df : Table) (x y color : Option String) (agg : String) :
    Except ChartError (Table × String) :=
  let gcols := group_cols_of x color
  if gcols = [] then .error .noGroupKeys
  else if y = none ∨ y = some "Count" ∨ agg = "count" then
    .ok (countAggregate df gcols, "Count")
  else
    match y with
    | some ycol =>
      if agg = "sum" then .ok (reduceAggregate df gcols ycol sumReduce, ycol)
      else if agg = "avg" then .ok (reduceAggregate df gcols ycol meanReduce, ycol)
      else if agg = "max" then .ok (reduceAggregate df gcols ycol maxReduce, ycol)
      else if agg = "min" then .ok (reduceAggregate df gcols ycol minReduce, ycol)
      else .ok (countAggregate df gcols, "Count")
    | none => .ok (countAggregate df gcols, "Count")

/-- Sort key of a cell for `sort_values(ascending=False)`: null below every
number (so NaN lands last in a descending sort, pandas `na_position`
default), numbers by value, strings in one tie class above numbers (the
pipeline never ranks by string measures). -/
def valKey : Scalar → Lex (ℕ × ℚ)
  | .sNull => toLex (0, 0)
  | .sInt n => toLex (1, (n : ℚ))
  | .sRat q => toLex (1, q)
  | .sStr _ => toLex (2, 0)

/-- Descending comparison of rows on the value column. -/
def rowDescLe (ycol : String) (r1 r2 : Row) : Bool :=
  decide (valKey (getCell r2 ycol) ≤ valKey (getCell r1 ycol))

/-- Insert into a sorted list, keeping `le`-sortedness. -/
def insertSorted (le : α → α → Bool) (a : α) : List α → List α
  | [] => [a]
  | b :: bs => if le a b then a :: b :: bs else b :: insertSorted le a bs

/-- Insertion sort; a structural model of `sort_values` (the properties used
downstream do not depend on the sorting algorithm or tie order). -/
def insertionSort (le : α → α → Bool) : List α → List α
  | [] => []
  | a :: as => insertSorted le a (insertionSort le as)

/-- Rows of the aggregated table sorted descending by the value column. -/
def sort_values_desc (ycol : String) (rows : List Row) : List Row :=
  insertionSort (rowDescLe ycol) rows

/-- The ranking/truncation step of `render_chart` (ai_charts.py lines
134-135): sort descending and keep the first `top_n` rows when `top_n` is a
positive integer, otherwise pass the table through untouched. -/
def rank_truncate (g : Table) (ycol : String) (top_n : Option Int) : Table :=
  match top_n with
  | some n => if 0 < n then ⟨g.cols, (sort_values_desc ycol g.rows).take n.toNat⟩ else g
  | none => g

/-- The raw chart-spec candidate parsed from the model output; every key of
the JSON object may be absent. -/
structure RawSpec where
  chart_type : Option String
  x : Option String
  y : Option String
  color : Option String
  agg : Option String
  top_n : Option Int
  filters : Option (List FilterPred)
  title : Option String
deriving DecidableEq

/-- The spec after the validation/normalization of render_chart lines
111-130. -/
structure ResolvedSpec where
  chart_type : String
  x : Option String
  y : String
  color : Option String
  agg : String
  top_n : Option Int
  filters : List FilterPred
  title : String
deriving DecidableEq

/-- `spec.get(key) or default`: Python truthiness, so `None` and `""` both
fall back. -/
def orDefault (v : Option String) (d : String) : String :=
  match v with
  | some s => if s = "" then d else s
  | none => d

/-- The four supported chart kinds (ai_charts.py line 11). -/
def SUPPORTED_CHARTS : List String := ["bar", "column", "pie", "line"]

/-- Python `.lower()` as character-wise ASCII case folding. -/
def strLower (s : String) : String := String.mk (lowerL s.data)

/-- `if color and color not in dff.columns: color = None`
(ai_charts.py lines 126-127). -/
def resolveColor (cols : List String) (color : Option String) : Option String :=
  match color with
  | some cc => if cc ≠ "" ∧ cc ∉ cols then none else some cc
  | none => none

/-- The defaulting/degradation part of spec resolution (render_chart lines
111-120 and 126-130): chart kind lowercased and defaulted to "bar", color
silently dropped when unknown, `y` forced to the Count sentinel (with
`agg = "count"`) when it names no column, filters and top_n passed through,
title defaulted. -/
def mkResolved (cols : List String) (spec : RawSpec) : ResolvedSpec :=
  let ct0 := strLower (orDefault spec.chart_type "bar")
  let ct := if ct0 ∈ SUPPORTED_CHARTS then ct0 else "bar"
  let y0 := orDefault spec.y "Count"
  let agg0 := strLower (orDefault spec.agg "count")
  let yAgg := if y0 ∉ cols ∧ y0 ≠ "Count" then ("Count", "count") else (y0, agg0)
  { chart_type := ct
    x := spec.x
    y := yAgg.1
    color := resolveColor cols spec.color
    agg := yAgg.2
    top_n := spec.top_n
    filters := spec.filters.getD []
    title := orDefault spec.title "Biểu đồ" }

/-- The Chart Spec Resolver: the validation of render_chart lines 111-130
against the filtered table's schema.  A truthy `x` absent from the schema
is the one hard failure (line 124-125); everything else degrades. -/
def resolve_spec (cols : List String) (spec : RawSpec) :
    Except ChartError ResolvedSpec :=
  match spec.x with
  | some cx =>
    if cx ≠ "" ∧ cx ∉ cols then .error (.unknownColumn cx)
    else .ok (mkResolved cols spec)
  | none => .ok (mkResolved cols spec)

/-- `render_chart` (ai_charts.py lines 110-146) up to its data product: the
filter → resolve → aggregate → rank pipeline, returning the aggregated
table and the value-column name handed to the chart renderer (the plotly
figure itself is out of scope).  Filters run before the x-axis check, as in
the source (line 122 before line 124); the resolver reads the filtered
table's schema, which filtering never changes. -/
def render_chart (df : Table) (spec : RawSpec) :
    Except ChartError (Table × String) :=
  let dff := _apply_filters df (spec.filters.getD [])
  match resolve_spec dff.cols spec with
  | .error e => .error e
  | .ok r =>
    match _aggregate dff r.x (some r.y) r.color r.agg with
    | .error e => .error e
    | .ok (g, ycol) => .ok (rank_truncate g ycol r.top_n, ycol)

/-- Filtering never changes the schema. -/
lemma applyOneFilter_cols (t : Table) (f : FilterPred) :
    (applyOneFilter t f).cols = t.cols := by
  unfold applyOneFilter
  repeat' split
  all_goals rfl

/-- Each predicate only deletes rows (in order). -/
lemma applyOneFilter_rows_sublist (t : Table) (f : FilterPred) :
    (applyOneFilter t f).rows.Sublist t.rows := by
  unfold applyOneFilter
  repeat' split
  all_goals first
    | exact List.filter_sublist _
    | exact List.Sublist.refl _

lemma apply_filters_cols (fs : List FilterPred) (t : Table) :
    (_apply_filters t fs).cols = t.cols := by
  induction fs generalizing t with
  | nil => rfl
  | cons f fs ih => exact (ih (applyOneFilter t f)).trans (applyOneFilter_cols t f)

lemma apply_filters_rows_sublist (fs : List FilterPred) (t : Table) :
    (_apply_filters t fs).rows.Sublist t.rows := by
  induction fs generalizing t with
  | nil => exact List.Sublist.refl _
  | cons f fs ih => exact (ih (applyOneFilter t f)).trans (applyOneFilter_rows_sublist t f)

/-- The row-level meaning of one filter predicate, read off the branches of
`_apply_filters`: the test a row must pass for the engine to keep it. -/
def rowSat (f : FilterPred) (r : Row) : Bool :=
  match f.column, f.op with
  | some c, some op =>
    if op = "eq" then
      match f.value with
      | .atom a => scalarEq (getCell r c) a
      | .vList _ => false
    else if op = "in" then (toListVal f.value).any (fun v => isinEq (getCell r c) v)
    else if op = "contains" then containsCI (pyStr f.value) (pyStrScalar (getCell r c))
    else if op = "between" then
      match unpack2 f.value with
      | some (a, b) => ((cmpGE (getCell r c) a).getD false) && ((cmpGE b (getCell r c)).getD false)
      | none => true
    else true
  | _, _ => true

def isScalarV : Val → Bool
  | .atom _ => true
  | .vList _ => false

def isIntCell : Scalar → Bool
  | .sInt _ => true
  | _ => false

def isIntPairV : Val → Bool
  | .vList [.sInt _, .sInt _] => true
  | _ => false

/-- Well-formedness of a predicate against a table: the column exists, the
operator is one of the four recognized ones, and the operand fits the
operator.  For `eq` the operand must be a scalar (a list operand makes the
pandas `==` raise a length-mismatch `ValueError` or broadcast elementwise,
outside the modelled fragment); for `contains` it must be a scalar free of
regex metacharacters, the fragment on which the source's regex-default
`str.contains` cannot raise `re.error` and coincides with the spec's
substring reading and with the model; for `between` it must be a pair of
numbers over a numeric column. -/
def wfFilterB (t : Table) (f : FilterPred) : Bool :=
  match f.column, f.op with
  | some c, some op =>
    decide (c ∈ t.cols) &&
    (if op = "eq" then isScalarV f.value
     else if op = "in" then true
     else if op = "contains" then isScalarV f.value && noMetaOperand f.value
     else if op = "between" then
       isIntPairV f.value && t.rows.all (fun r => isIntCell (getCell r c))
     else false)
  | _, _ => false

/-- On a well-formed predicate, the engine's step is exactly a row filter by
`rowSat`. -/
lemma applyOneFilter_eq_filter_rowSat (t : Table) (f : FilterPred)
    (h : wfFilterB t f = true) :
    applyOneFilter t f = ⟨t.cols, t.rows.filter (rowSat f)⟩ := by
  obtain ⟨fc, fop, fv⟩ := f
  match fc, fop with
  | none, _ => simp [wfFilterB] at h
  | some c, none => simp [wfFilterB] at h
  | some c, some op =>
    rw [wfFilterB] at h
    rw [Bool.and_eq_true] at h
    obtain ⟨hc, hop⟩ := h
    replace hc := of_decide_eq_true hc
    simp only [applyOneFilter]
    rw [if_pos hc]
    by_cases h1 : op = "eq"
    · subst h1
      rw [if_pos rfl]
      rfl
    · by_cases h2 : op = "in"
      · subst h2
        rw [if_neg (by decide), if_pos rfl]
        rfl
      · by_cases h3 : op = "contains"
        · subst h3
          rw [if_neg (by decide), if_neg (by decide), if_pos rfl]
          rfl
        · by_cases h4 : op = "between"
          · subst h4
            rw [if_neg (by decide), if_neg (by decide), if_neg (by decide), if_pos rfl,
              Bool.and_eq_true] at hop
            obtain ⟨hpair, hnum⟩ := hop
            match fv, hpair with
            | .vList [.sInt a, .sInt b], _ =>
              rw [if_neg (by decide), if_neg (by decide), if_neg (by decide), if_pos rfl]
              have hall : (t.rows.all (fun r =>
                  (cmpGE (getCell r c) (.sInt a)).isSome &&
                    (cmpGE (.sInt b) (getCell r c)).isSome)) = true := by
                rw [List.all_eq_true]
                intro r hr
                have hint := List.all_eq_true.mp hnum r hr
                match hcell : getCell r c, hint with
                | .sInt z, _ => rfl
              simp only [unpack2]
              rw [if_pos hall]
              rfl
          · rw [if_neg h1, if_neg h2, if_neg h3, if_neg h4] at hop
            exact absurd hop (by simp)

/-- Well-formedness survives passing to a table with the same schema and a
sub-multiset of the rows (the state of the fold after earlier filters). -/
lemma wfFilterB_mono (t t' : Table) (f : FilterPred) (hcols : t'.cols = t.cols)
    (hsub : t'.rows.Sublist t.rows) (h : wfFilterB t f = true) :
    wfFilterB t' f = true := by
  obtain ⟨fc, fop, fv⟩ := f
  match fc, fop with
  | none, _ => simp [wfFilterB] at h
  | some c, none => simp [wfFilterB] at h
  | some c, some op =>
    rw [wfFilterB] at h ⊢
    rw [Bool.and_eq_true] at h ⊢
    obtain ⟨hc, hop⟩ := h
    replace hc := of_decide_eq_true hc
    have hc' : c ∈ t'.cols := by rw [hcols]; exact hc
    refine ⟨decide_eq_true hc', ?_⟩
    by_cases h4 : op = "between"
    · subst h4
      rw [if_neg (by decide), if_neg (by decide), if_neg (by decide), if_pos rfl,
        Bool.and_eq_true] at hop ⊢
      refine ⟨hop.1, ?_⟩
      rw [List.all_eq_true] at *
      intro r hr
      exact hop.2 r (hsub.subset hr)
    · by_cases h1 : op = "eq"
      · subst h1
        rw [if_pos rfl] at hop ⊢
        exact hop
      · by_cases h2 : op = "in"
        · subst h2
          rw [if_neg (by decide), if_pos rfl]
        · by_cases h3 : op = "contains"
          · subst h3
            rw [if_neg (by decide), if_neg (by decide), if_pos rfl] at hop ⊢
            exact hop
          · rw [if_neg h1, if_neg h2, if_neg h3, if_neg h4] at hop
            exact absurd hop (by simp)

lemma apply_filters_sat : ∀ (fs : List FilterPred) (t : Table),
    (∀ f ∈ fs, wfFilterB t f = true) →
    ∀ r ∈ (_apply_filters t fs).rows, ∀ f ∈ fs, rowSat f r = true := by
  intro fs
  induction fs with
  | nil => intro t _; simp
  | cons f fs ih =>
    intro t hwf r hr g hg
    have hf := hwf f (List.mem_cons_self f fs)
    have hstep : _apply_filters t (f :: fs) = _apply_filters (applyOneFilter t f) fs := rfl
    rw [hstep] at hr
    rcases List.mem_cons.mp hg with hgf | hgs
    · have hmem : r ∈ (applyOneFilter t f).rows :=
        (apply_filters_rows_sublist fs (applyOneFilter t f)).subset hr
      rw [applyOneFilter_eq_filter_rowSat t f hf] at hmem
      rw [hgf]
      exact (List.mem_filter.mp hmem).2
    · refine ih (applyOneFilter t f) ?_ r hr g hgs
      intro g' hg'
      exact wfFilterB_mono t (applyOneFilter t f) g' (applyOneFilter_cols t f)
        (applyOneFilter_rows_sublist t f) (hwf g' (List.mem_cons_of_mem f hg'))

/-- C3: for every table and every sequence of well-formed filter predicates
on existing columns, the Filter Engine returns at most as many rows as it
was given, and every retained row satisfies every predicate (conjunctive
filtering).  Well-formedness (`wfFilterB`) requires scalar `eq` operands,
metacharacter-free `contains` operands and numeric `between` pairs over
numeric columns — exactly the fragment on which the source cannot raise
inside the loop and the exception-free model reproduces pandas, the
`contains` row test coinciding there with the spec's case-insensitive
substring reading. -/
theorem C3_filter_engine_sound (t : Table) (fs : List FilterPred)
    (hwf : ∀ f ∈ fs, wfFilterB t f = true) :
    (_apply_filters t fs).rows.length ≤ t.rows.length ∧
      ∀ r ∈ (_apply_filters t fs).rows, ∀ f ∈ fs, rowSat f r = true :=
  ⟨(apply_filters_rows_sublist fs t).length_le, apply_filters_sat fs t hwf⟩

lemma getCell_cons_self (c : String) (v : Scalar) (rest : Row) :
    getCell ((c, v) :: rest) c = v := by
  simp [getCell, List.find?_cons_of_pos]

lemma getCell_cons_ne (c' c : String) (v : Scalar) (rest : Row) (hne : c' ≠ c) :
    getCell ((c', v) :: rest) c = getCell rest c := by
  have : ((c', v).1 == c) = false := beq_eq_false_iff_ne.mpr hne
  simp [getCell, List.find?_cons_of_neg, this]

/-- Reading the group-key columns back out of an emitted group row recovers
the key. -/
lemma keyOf_mkGroupRow (gcols : List String) (hnd : gcols.Nodup) (k : List Scalar)
    (hlen : k.length = gcols.length) (ycol : String) (v : Scalar) :
    keyOf gcols (mkGroupRow gcols ycol k v) = k := by
  induction gcols generalizing k with
  | nil =>
    cases k with
    | nil => rfl
    | cons a as => simp at hlen
  | cons c cs ih =>
    cases k with
    | nil => simp at hlen
    | cons kv ks =>
      obtain ⟨hc, hcs⟩ := List.nodup_cons.mp hnd
      have hrow : mkGroupRow (c :: cs) ycol (kv :: ks) v =
          (c, kv) :: mkGroupRow cs ycol ks v := rfl
      rw [hrow]
      show getCell ((c, kv) :: mkGroupRow cs ycol ks v) c ::
          cs.map (getCell ((c, kv) :: mkGroupRow cs ycol ks v)) = kv :: ks
      rw [getCell_cons_self]
      congr 1
      have hmap : cs.map (getCell ((c, kv) :: mkGroupRow cs ycol ks v)) =
          cs.map (getCell (mkGroupRow cs ycol ks v)) := by
        apply List.map_congr_left
        intro c' hc'
        exact getCell_cons_ne c c' kv _ (fun h => hc (h ▸ hc'))
      rw [hmap]
      exact ih hcs ks (by simpa using hlen)

/-- Reading the value column out of an emitted group row recovers the
reduced value, provided the value-column name is not also a key column. -/
lemma getCell_mkGroupRow_val (gcols : List String) (k : List Scalar) (ycol : String)
    (hy : ycol ∉ gcols) (v : Scalar) :
    getCell (mkGroupRow gcols ycol k v) ycol = v := by
  induction gcols generalizing k with
  | nil => simp [mkGroupRow, getCell_cons_self]
  | cons c cs ih =>
    cases k with
    | nil => simp [mkGroupRow, getCell_cons_self]
    | cons kv ks =>
      have hrow : mkGroupRow (c :: cs) ycol (kv :: ks) v =
          (c, kv) :: mkGroupRow cs ycol ks v := rfl
      rw [hrow, getCell_cons_ne c ycol kv _ (fun h => hy (h ▸ List.mem_cons_self c cs))]
      exact ih ks (fun h => hy (List.mem_cons_of_mem c h))

/-- The group keys of the count aggregation are exactly the distinct keys of
the input rows. -/
lemma countAggregate_keys (df : Table) (gcols : List String) (hnd : gcols.Nodup) :
    (countAggregate df gcols).rows.map (keyOf gcols) =
      (df.rows.map (keyOf gcols)).dedup := by
  simp only [countAggregate, List.map_map]
  conv_rhs => rw [← List.map_id ((df.rows.map (keyOf gcols)).dedup)]
  apply List.map_congr_left
  intro k hk
  obtain ⟨r, _, rfl⟩ := List.mem_map.mp (List.mem_dedup.mp hk)
  exact keyOf_mkGroupRow gcols hnd _ (by simp [keyOf]) "Count" _

/-- The `Count` column of the count aggregation carries the multiplicity of
each distinct key. -/
lemma countAggregate_counts (df : Table) (gcols : List String)
    (hcnt : "Count" ∉ gcols) :
    (countAggregate df gcols).rows.map (fun r => getCell r "Count") =
      (df.rows.map (keyOf gcols)).dedup.map
        (fun k => Scalar.sInt ((df.rows.map (keyOf gcols)).count k)) := by
  simp only [countAggregate, List.map_map]
  apply List.map_congr_left
  intro k _
  exact getCell_mkGroupRow_val gcols k "Count" hcnt _

/-- C4: grouping the filtered table by the non-null (truthy) subset of
x/color and reducing with `count` (or the Count sentinel) yields exactly
one row per distinct group key — null key cells included, since the model's
grouping drops no key — and the per-group counts sum to the input row
count. -/
theorem C4_count_aggregation (df : Table) (x y color : Option String) (agg : String)
    (hcount : y = none ∨ y = some "Count" ∨ agg = "count")
    (hne : group_cols_of x color ≠ [])
    (hnd : (group_cols_of x color).Nodup)
    (hcnt : "Count" ∉ group_cols_of x color) :
    _aggregate df x y color agg =
      .ok (countAggregate df (group_cols_of x color), "Count") ∧
    ((countAggregate df (group_cols_of x color)).rows.map
      (keyOf (group_cols_of x color))).Nodup ∧
    (∀ r ∈ df.rows, keyOf (group_cols_of x color) r ∈
      (countAggregate df (group_cols_of x color)).rows.map
        (keyOf (group_cols_of x color))) ∧
    ((countAggregate df (group_cols_of x color)).rows.map (fun r => getCell r "Count") =
      (df.rows.map (keyOf (group_cols_of x color))).dedup.map
        (fun k => Scalar.sInt ((df.rows.map (keyOf (group_cols_of x color))).count k))) ∧
    ((df.rows.map (keyOf (group_cols_of x color))).dedup.map
      (fun k => (df.rows.map (keyOf (group_cols_of x color))).count k)).sum =
      df.rows.length := by
  refine ⟨?_, ?_, ?_, ?_, ?_⟩
  · simp only [_aggregate]
    rw [if_neg hne, if_pos hcount]
  · rw [countAggregate_keys df _ hnd]
    exact List.nodup_dedup _
  · intro r hr
    rw [countAggregate_keys df _ hnd]
    exact List.mem_dedup.mpr (List.mem_map_of_mem _ hr)
  · exact countAggregate_counts df _ hcnt
  · have hbridge : ∀ (ks : List (List Scalar)),
        (ks.dedup.map (fun k => ks.count k)).sum = ks.length := by
      intro ks
      have h := List.sum_map_count_dedup_eq_length ks
      rw [← h]
      apply congrArg
      apply List.map_congr_left
      intro k _
      have e1 : ks.count k = ks.countP (fun x => x == k) := List.count_eq_countP k ks
      have e2 : @List.count _ (@instBEqOfDecidableEq (List Scalar) _) k ks =
          ks.countP (fun x => decide (x = k)) :=
        @List.count_eq_countP (List Scalar) (@instBEqOfDecidableEq (List Scalar) _) k ks
      rw [e1, e2]
      apply List.countP_congr
      intro b _
      constructor
      · intro hb
        have hbk : b = k := eq_of_beq hb
        subst hbk
        exact decide_eq_true rfl
      · intro hb
        have hbk : b = k := of_decide_eq_true hb
        subst hbk
        exact beq_self_eq_true b
    rw [hbridge, List.length_map]

lemma length_insertSorted (le : α → α → Bool) (a : α) (l : List α) :
    (insertSorted le a l).length = l.length + 1 := by
  induction l with
  | nil => rfl
  | cons b bs ih =>
    simp only [insertSorted]
    split
    · rfl
    · simp [ih]

lemma mem_insertSorted (le : α → α → Bool) (a x : α) (l : List α) :
    x ∈ insertSorted le a l ↔ x = a ∨ x ∈ l := by
  induction l with
  | nil => simp [insertSorted]
  | cons b bs ih =>
    simp only [insertSorted]
    split
    · simp
    · simp only [List.mem_cons, ih]
      tauto

lemma pairwise_insertSorted (le : α → α → Bool)
    (htot : ∀ a b, le a b = true ∨ le b a = true)
    (htrans : ∀ a b c, le a b = true → le b c = true → le a c = true)
    (a : α) (l : List α) (h : l.Pairwise (fun x y => le x y = true)) :
    (insertSorted le a l).Pairwise (fun x y => le x y = true) := by
  induction l with
  | nil => simp [insertSorted]
  | cons b bs ih =>
    rw [List.pairwise_cons] at h
    obtain ⟨hb, hbs⟩ := h
    simp only [insertSorted]
    by_cases hab : le a b = true
    · rw [if_pos hab]
      refine List.pairwise_cons.mpr ⟨?_, List.pairwise_cons.mpr ⟨hb, hbs⟩⟩
      intro x hx
      rcases List.mem_cons.mp hx with rfl | hxbs
      · exact hab
      · exact htrans a b x hab (hb x hxbs)
    · rw [if_neg hab]
      refine List.pairwise_cons.mpr ⟨?_, ih hbs⟩
      intro x hx
      rcases (mem_insertSorted le a x bs).mp hx with rfl | hxbs
      · rcases htot x b with h1 | h1
        · exact absurd h1 hab
        · exact h1
      · exact hb x hxbs

lemma length_insertionSort (le : α → α → Bool) (l : List α) :
    (insertionSort le l).length = l.length := by
  induction l with
  | nil => rfl
  | cons a as ih =>
    simp only [insertionSort]
    rw [length_insertSorted, ih]
    rfl

lemma pairwise_insertionSort (le : α → α → Bool)
    (htot : ∀ a b, le a b = true ∨ le b a = true)
    (htrans : ∀ a b c, le a b = true → le b c = true → le a c = true)
    (l : List α) :
    (insertionSort le l).Pairwise (fun x y => le x y = true) := by
  induction l with
  | nil => simp [insertionSort]
  | cons a as ih => exact pairwise_insertSorted le htot htrans a _ ih

lemma rowDescLe_total (ycol : String) (r1 r2 : Row) :
    rowDescLe ycol r1 r2 = true ∨ rowDescLe ycol r2 r1 = true := by
  rcases le_total (valKey (getCell r2 ycol)) (valKey (getCell r1 ycol)) with h | h
  · exact Or.inl (decide_eq_true h)
  · exact Or.inr (decide_eq_true h)

lemma rowDescLe_trans (ycol : String) (r1 r2 r3 : Row)
    (h1 : rowDescLe ycol r1 r2 = true) (h2 : rowDescLe ycol r2 r3 = true) :
    rowDescLe ycol r1 r3 = true :=
  decide_eq_true (le_trans (of_decide_eq_true h2) (of_decide_eq_true h1))

/-- C5: with a positive integer `top_n = n` the ranking step returns the
aggregated rows sorted descending by the value column and truncated to `n`
rows, so the output length is `min n (number of rows)` and the value column
is non-increasing (in the sort order of `valKey`); with `top_n` absent or
not positive the table passes through unchanged — no sorting happens. -/
theorem C5_rank_truncate_spec (g : Table) (ycol : String) (tn : Option Int) :
    (∀ n : Int, tn = some n → 0 < n →
      (rank_truncate g ycol tn).rows.length = min n.toNat g.rows.length ∧
      ((rank_truncate g ycol tn).rows.map (fun r => getCell r ycol)).Pairwise
        (fun v w => valKey w ≤ valKey v)) ∧
    ((tn = none ∨ ∃ n : Int, tn = some n ∧ n ≤ 0) → rank_truncate g ycol tn = g) := by
  constructor
  · intro n hn hpos
    subst hn
    simp only [rank_truncate]
    rw [if_pos hpos]
    constructor
    · simp [List.length_take, sort_values_desc, length_insertionSort]
    · have hsorted : (sort_values_desc ycol g.rows).Pairwise
          (fun r1 r2 => rowDescLe ycol r1 r2 = true) :=
        pairwise_insertionSort _ (rowDescLe_total ycol) (rowDescLe_trans ycol) g.rows
      have htake : (((sort_values_desc ycol g.rows).take n.toNat)).Pairwise
          (fun r1 r2 => rowDescLe ycol r1 r2 = true) :=
        List.Pairwise.sublist (List.take_sublist _ _) hsorted
      rw [List.pairwise_map]
      exact htake.imp (fun h => of_decide_eq_true h)
  · intro hcase
    rcases hcase with rfl | ⟨n, rfl, hn⟩
    · rfl
    · simp only [rank_truncate]
      rw [if_neg (by omega)]

/-- A filter predicate whose execution in `_apply_filters` cannot raise:
when its column exists (otherwise the loop skips it, line 71-72), an `eq`
operand must be a scalar (pandas `==` against a list raises a
length-mismatch `ValueError` or broadcasts) and a `contains` operand must
be free of regex metacharacters (`str.contains` compiles the operand as a
regex and raises `re.error` on invalid patterns such as a lone opening
parenthesis).  `in` never raises on scalar elements, `between` wraps its
body in `try`/`except`, and an unrecognized or absent op is a no-op.  On
predicates satisfying this, the modelled exception-free filter engine
agrees with the source. -/
def filterNoRaise (t : Table) (f : FilterPred) : Bool :=
  match f.column, f.op with
  | some c, some op =>
    if c ∈ t.cols then
      if op = "eq" then isScalarV f.value
      else if op = "contains" then noMetaOperand f.value
      else true
    else true
  | _, _ => true

/-- C1 counterexample: the claim quantifies over every non-null `x` string
absent from the schema, but Python truthiness (`if x and x not in ...`,
line 124) skips the check for the empty string: with `x = ""` (a non-null
string naming no column) and a valid color, the pipeline happily produces
an aggregated result instead of failing with `UnknownColumn`. -/
theorem C1_counterexample_empty_x :
    ("" ∉ ["Industry"]) ∧
    render_chart ⟨["Industry"], [[("Industry", Scalar.sStr "Water")]]⟩
      { chart_type := some "bar", x := some "", y := some "Count",
        color := some "Industry", agg := some "count", top_n := none,
        filters := some [], title := some "t" } =
      .ok (⟨["Industry", "Count"],
            [[("Industry", Scalar.sStr "Water"), ("Count", Scalar.sInt 1)]]⟩, "Count") :=
  ⟨by decide, by rfl⟩

/-- C1 amended: a non-empty `x` naming no column of the input table makes
the pipeline fail with `UnknownColumn x`, whatever the other specification
fields are, provided executing the filter predicates cannot itself raise.
Both provisos are forced: the empty string is falsy so the check is
skipped (counterexample above), and the filters run at line 122, before
the x-check at line 124, so a raising predicate — a regex-invalid
`contains` operand hitting `re.error`, a list `eq` operand hitting a
length-mismatch `ValueError` — preempts `UnknownColumn` with a different
exception.  The `filterNoRaise` hypothesis delimits the specs on which the
modelled exception-free filter engine agrees with the source; within it
the error is raised before `_aggregate` runs (the monadic bind
short-circuits exactly where the source raises, line 125, ahead of the
aggregation call on line 132), so no aggregated result is produced. -/
theorem C1_unknown_x_column (df : Table) (spec : RawSpec) (s : String)
    (hx : spec.x = some s) (hne : s ≠ "") (habs : s ∉ df.cols)
    (_hfs : ∀ f ∈ spec.filters.getD [], filterNoRaise df f = true) :
    render_chart df spec = .error (.unknownColumn s) := by
  have hcols : (_apply_filters df (spec.filters.getD [])).cols = df.cols :=
    apply_filters_cols _ _
  simp only [render_chart, resolve_spec, hx]
  rw [if_pos ⟨hne, by rw [hcols]; exact habs⟩]

/-- C2 counterexample: the resolver is not total — a truthy unknown `x`
makes it fail, so "never fails ... for every combination of field values"
is false on the code (this is exactly the hard error the spec itself
mandates in its resolution policy and in C1). -/
theorem C2_counterexample_resolver_fails :
    resolve_spec ["Industry"]
      { chart_type := some "bar", x := some "Bogus", y := some "Count",
        color := none, agg := some "count", top_n := none,
        filters := some [], title := some "Thị phần" } =
      .error (.unknownColumn "Bogus") := by
  rfl

/-- C2 amended: the resolver never fails and produces an internally
consistent resolved specification, *provided* the `x` field, when truthy,
names a column of the schema; resolution of every other field always
degrades to safe defaults (supported chart kind, color kept only when
valid, `y` either the Count sentinel or an existing column). -/
theorem C2_resolver_total_amended (cols : List String) (spec : RawSpec)
    (hx : ∀ s, spec.x = some s → s ≠ "" → s ∈ cols) :
    ∃ r, resolve_spec cols spec = .ok r ∧
      r.chart_type ∈ SUPPORTED_CHARTS ∧
      (∀ s, r.color = some s → s ≠ "" → s ∈ cols) ∧
      (r.y = "Count" ∨ r.y ∈ cols) := by
  have h1 : (mkResolved cols spec).chart_type ∈ SUPPORTED_CHARTS := by
    simp only [mkResolved]
    split
    · next hmem => exact hmem
    · decide
  have h2 : ∀ s, (mkResolved cols spec).color = some s → s ≠ "" → s ∈ cols := by
    intro s hs hsne
    have hs' : resolveColor cols spec.color = some s := hs
    match hcv : spec.color with
    | none =>
      rw [hcv] at hs'
      exact absurd hs' (by simp [resolveColor])
    | some cc =>
      rw [hcv] at hs'
      simp only [resolveColor] at hs'
      by_cases hbad : cc ≠ "" ∧ cc ∉ cols
      · rw [if_pos hbad] at hs'
        exact absurd hs' (by simp)
      · rw [if_neg hbad] at hs'
        have hcs : cc = s := by simpa using hs'
        subst hcs
        rcases not_and_or.mp hbad with hemp | hmem
        · exact absurd (not_not.mp hemp) hsne
        · exact not_not.mp hmem
  have h3 : (mkResolved cols spec).y = "Count" ∨ (mkResolved cols spec).y ∈ cols := by
    simp only [mkResolved]
    by_cases hy : orDefault spec.y "Count" ∉ cols ∧ orDefault spec.y "Count" ≠ "Count"
    · rw [if_pos hy]
      exact Or.inl rfl
    · rw [if_neg hy]
      rcases not_and_or.mp hy with hmem | hcnt
      · exact Or.inr (not_not.mp hmem)
      · exact Or.inl (not_not.mp hcnt)
  match hxv : spec.x with
  | none =>
    refine ⟨mkResolved cols spec, ?_, h1, h2, h3⟩
    simp [resolve_spec, hxv]
  | some cx =>
    have hcx := hx cx hxv
    refine ⟨mkResolved cols spec, ?_, h1, h2, h3⟩
    simp only [resolve_spec, hxv]
    by_cases hemp : cx = ""
    · rw [if_neg (fun hcontra => hcontra.1 hemp)]
    · rw [if_neg (fun hcontra => hcontra.2 (hcx hemp))]

/-- C10: when both `x` and `color` are null the group-key list of
`_aggregate` is empty and the pipeline raises (pandas `groupby([])`)
instead of producing any aggregated result — an edge case the spec leaves
unstated: some truthy x or color is needed for any chart. -/
theorem C10_null_axes_raise (df : Table) (spec : RawSpec)
    (hx : spec.x = none) (hcolor : spec.color = none) :
    render_chart df spec = .error .noGroupKeys := by
  have hmx : (mkResolved (_apply_filters df (spec.filters.getD [])).cols spec).x = none := by
    simp [mkResolved, hx]
  have hmc : (mkResolved (_apply_filters df (spec.filters.getD [])).cols spec).color
      = none := by
    simp [mkResolved, resolveColor, hcolor]
  simp only [render_chart, resolve_spec, hx, hmx, hmc]
  rfl

/-- NaN is a float in Python, so a null bound is numeric: comparisons with
it are defined (and false), not raising. -/
def isNumLike : Scalar → Bool
  | .sInt _ => true
  | .sRat _ => true
  | .sNull => true
  | .sStr _ => false

/-- A malformed `between` operand in the sense of the spec: it does not
unpack into two elements, or an unpacked bound is non-numeric. -/
def malformedBetween (v : Val) : Bool :=
  match unpack2 v with
  | none => true
  | some (a, b) => !(isNumLike a && isNumLike b)

/-- C6: on a numeric column, a `between` predicate with a well-formed
two-element numeric pair `[low, high]` keeps exactly the rows with
`low ≤ v ≤ high` (inclusive bounds), while a malformed operand (not exactly
two elements, or a non-numeric bound whose comparison raises) makes the
predicate a no-op — the exception is swallowed, never escaping the filter
chain. -/
theorem C6_between_semantics (t : Table) (c : String) (v : Val)
    (hc : c ∈ t.cols)
    (hnum : t.rows.all (fun r => isIntCell (getCell r c)) = true) :
    (∀ a b : Int, v = .vList [.sInt a, .sInt b] →
      applyOneFilter t ⟨some c, some "between", v⟩ =
        ⟨t.cols, t.rows.filter (fun r =>
          match getCell r c with
          | .sInt z => decide (a ≤ z ∧ z ≤ b)
          | _ => false)⟩) ∧
    (malformedBetween v = true →
      applyOneFilter t ⟨some c, some "between", v⟩ = t) := by
  constructor
  · intro a b hv
    subst hv
    have hall : (t.rows.all (fun r =>
        (cmpGE (getCell r c) (.sInt a)).isSome &&
          (cmpGE (.sInt b) (getCell r c)).isSome)) = true := by
      rw [List.all_eq_true]
      intro r hr
      have hint := List.all_eq_true.mp hnum r hr
      match hcell : getCell r c, hint with
      | .sInt z, _ => rfl
    simp only [applyOneFilter]
    rw [if_pos hc, if_neg (by decide), if_neg (by decide), if_neg (by decide),
      if_pos trivial]
    simp only [unpack2]
    rw [if_pos hall]
    congr 1
    apply List.filter_congr
    intro r hr
    have hint := List.all_eq_true.mp hnum r hr
    match hcell : getCell r c, hint with
    | .sInt z, _ =>
      show (decide (a ≤ z) && decide (z ≤ b)) = decide (a ≤ z ∧ z ≤ b)
      by_cases h1 : a ≤ z <;> by_cases h2 : z ≤ b <;> simp [h1, h2]
  · intro hmal
    obtain ⟨tcols, trows⟩ := t
    simp only [applyOneFilter]
    rw [if_pos hc, if_neg (by decide), if_neg (by decide), if_neg (by decide),
      if_pos trivial]
    match hup : unpack2 v with
    | none => rfl
    | some (a, b) =>
      have hmal2 : (!(isNumLike a && isNumLike b)) = true := by
        rw [malformedBetween, hup] at hmal
        exact hmal
      have hab : isNumLike a = false ∨ isNumLike b = false := by
        by_cases ha : isNumLike a = true
        · by_cases hb : isNumLike b = true
          · rw [ha, hb] at hmal2
            exact absurd hmal2 (by decide)
          · exact Or.inr (by simpa using hb)
        · exact Or.inl (by simpa using ha)
      cases trows with
      | nil => rfl
      | cons r0 rest =>
        have h0 := List.all_eq_true.mp hnum r0 (List.mem_cons_self r0 rest)
        have hcond : ¬ (((r0 :: rest).all (fun r =>
            (cmpGE (getCell r c) a).isSome && (cmpGE b (getCell r c)).isSome)) = true) := by
          intro hcontra
          have hhead := List.all_eq_true.mp hcontra r0 (List.mem_cons_self r0 rest)
          rw [Bool.and_eq_true] at hhead
          match hcell : getCell r0 c, h0 with
          | .sInt z, _ =>
            rw [hcell] at hhead
            rcases hab with ha | hb
            · match a, ha with
              | .sStr s, _ => exact absurd hhead.1 (by simp [cmpGE])
            · match b, hb with
              | .sStr s, _ => exact absurd hhead.2 (by simp [cmpGE])
        exact (if_neg hcond :
          (if ((r0 :: rest).all (fun r =>
              (cmpGE (getCell r c) a).isSome && (cmpGE b (getCell r c)).isSome)) = true then
            ({ cols := tcols,
               rows := List.filter (fun r =>
                 (cmpGE (getCell r c) a).getD false && (cmpGE b (getCell r c)).getD false)
                 (r0 :: rest) } : Table)
          else { cols := tcols, rows := r0 :: rest }) = { cols := tcols, rows := r0 :: rest })

/-- Claim-side definition, following the spec's words: `p` occurs in `s` as
a literal substring. -/
def literalSubstrL (p s : List Char) : Bool :=
  (List.range (s.length + 1)).any (fun i => p.isPrefixOf (s.drop i))

/-- Claim-side definition, following the spec's words: case-insensitive
literal substring test of the operand text against the cell text. -/
def substring_contains_spec (pat cell : String) : Bool :=
  literalSubstrL (lowerL pat.data) (lowerL cell.data)

lemma matchHere_eq_isPrefixOf (p : List Char)
    (hnd : p.all (fun ch => !(ch == '.')) = true) :
    ∀ t : List Char, matchHere p t = p.isPrefixOf t := by
  induction p with
  | nil => intro t; cases t <;> rfl
  | cons c cs ih =>
    intro t
    cases t with
    | nil => rfl
    | cons d ds =>
      have hcd : (c == '.') = false := by
        have hmem := List.all_eq_true.mp hnd c (List.mem_cons_self c cs)
        simpa using hmem
      have hcs : cs.all (fun ch => !(ch == '.')) = true := by
        rw [List.all_eq_true] at hnd ⊢
        intro ch hch
        exact hnd ch (List.mem_cons_of_mem c hch)
      show ((c == '.' || c == d) && matchHere cs ds) = ((c == d) && cs.isPrefixOf ds)
      rw [hcd, Bool.false_or, ih hcs ds]

/-- On dot-free patterns the modelled regex search is the literal substring
test. -/
lemma regexSearchL_eq_literal (p s : List Char)
    (hnd : p.all (fun ch => !(ch == '.')) = true) :
    regexSearchL p s = literalSubstrL p s := by
  unfold regexSearchL literalSubstrL
  simp only [matchHere_eq_isPrefixOf p hnd]

/-- C7 counterexample: the `contains` operator feeds the operand to
`str.contains` with its regex default, so the operand `"a.c"` keeps the row
with cell `"abc"` even though `"a.c"` is not a literal substring of
`"abc"` — the claim's "keeps exactly the literal-substring rows" is false
on the code. -/
theorem C7_counterexample_regex_not_literal :
    (applyOneFilter ⟨["Name"], [[("Name", Scalar.sStr "abc")]]⟩
        ⟨some "Name", some "contains", Val.atom (Scalar.sStr "a.c")⟩).rows =
      [[("Name", Scalar.sStr "abc")]] ∧
    substring_contains_spec "a.c" "abc" = false := by
  decide

/-- C7 amended: the `contains` filter keeps exactly the rows whose cell
text matches the operand text as a case-insensitive regular expression;
when the case-folded operand text contains no regex metacharacter this
coincides with the case-insensitive literal substring test of the spec. -/
theorem C7_contains_amended (t : Table) (c : String) (v : Val)
    (hc : c ∈ t.cols)
    (hmeta : (lowerL (pyStr v).data).all (fun ch => !(isRegexMeta ch)) = true) :
    applyOneFilter t ⟨some c, some "contains", v⟩ =
      ⟨t.cols, t.rows.filter (fun r =>
        substring_contains_spec (pyStr v) (pyStrScalar (getCell r c)))⟩ := by
  have hnd : (lowerL (pyStr v).data).all (fun ch => !(ch == '.')) = true := by
    rw [List.all_eq_true] at hmeta ⊢
    intro ch hch
    have hm := hmeta ch hch
    by_cases hdot : ch = '.'
    · subst hdot
      exact absurd hm (by decide)
    · simp [hdot]
  simp only [applyOneFilter]
  rw [if_pos hc, if_neg (by decide), if_neg (by decide), if_pos trivial]
  congr 1
  apply List.filter_congr
  intro r hr
  show containsCI (pyStr v) (pyStrScalar (getCell r c)) = _
  unfold containsCI substring_contains_spec
  exact regexSearchL_eq_literal _ _ hnd

lemma orDefault_some (s d : String) (h : s ≠ "") : orDefault (some s) d = s := by
  simp [orDefault, h]

/-- C8 counterexample: a specification that is valid in the claim's sense
(chart kind `bar`, `x` an existing column, `y` naming the existing column
`""`, reducer `count`) is not returned unchanged: Python truthiness turns
the empty-string `y` into the Count sentinel and the empty title into the
default title, so resolution is not the identity on it. -/
theorem C8_counterexample_not_idempotent :
    resolve_spec ["", "Industry"]
      { chart_type := some "bar", x := some "Industry", y := some "",
        color := none, agg := some "count", top_n := none,
        filters := some [], title := some "" } =
      .ok { chart_type := "bar", x := some "Industry", y := "Count",
            color := none, agg := "count", top_n := none, filters := [],
            title := "Biểu đồ" } := by
  rfl

/-- C8 amended: resolving an already-valid specification (all fields
present; chart kind one of the four lowercase kinds; `x` and `color`
existing columns or null; `y` an existing column or the Count sentinel;
reducer one of the five lowercase reducers) against the same schema
returns it unchanged, provided additionally that the `y` column name and
the title are non-empty strings (Python truthiness would otherwise replace
them with defaults, as the counterexample shows). -/
theorem C8_resolver_idempotent_amended (cols : List String) (ct : String)
    (x : Option String) (y : String) (color : Option String) (agg : String)
    (tn : Option Int) (fs : List FilterPred) (title : String)
    (hct : ct ∈ SUPPORTED_CHARTS)
    (hx : ∀ s, x = some s → s ∈ cols)
    (hy : y ∈ cols ∨ y = "Count") (hyne : y ≠ "")
    (hcolor : ∀ s, color = some s → s ∈ cols)
    (hagg : agg ∈ ["count", "sum", "avg", "max", "min"])
    (htitle : title ≠ "") :
    resolve_spec cols
      { chart_type := some ct, x := x, y := some y, color := color,
        agg := some agg, top_n := tn, filters := some fs, title := some title } =
      .ok { chart_type := ct, x := x, y := y, color := color, agg := agg,
            top_n := tn, filters := fs, title := title } := by
  have hctne : ct ≠ "" := by fin_cases hct <;> decide
  have haggne : agg ≠ "" := by fin_cases hagg <;> decide
  have hlowct : strLower ct = ct := by fin_cases hct <;> decide
  have hlowagg : strLower agg = agg := by fin_cases hagg <;> decide
  have hymem : ¬(y ∉ cols ∧ y ≠ "Count") := by
    rcases hy with h | h
    · intro hcontra; exact hcontra.1 h
    · intro hcontra; exact hcontra.2 h
  have hcol : resolveColor cols color = color := by
    match hcv : color with
    | none => rfl
    | some cc =>
      simp only [resolveColor]
      rw [if_neg (fun h => h.2 (hcolor cc rfl))]
  have hmk : mkResolved cols
      { chart_type := some ct, x := x, y := some y, color := color,
        agg := some agg, top_n := tn, filters := some fs, title := some title } =
      { chart_type := ct, x := x, y := y, color := color, agg := agg,
        top_n := tn, filters := fs, title := title } := by
    simp only [mkResolved]
    rw [orDefault_some ct "bar" hctne, hlowct, orDefault_some y "Count" hyne,
      orDefault_some agg "count" haggne, hlowagg,
      orDefault_some title "Biểu đồ" htitle, if_pos hct, if_neg hymem, hcol]
    rfl
  match hxv : x with
  | none =>
    simp only [resolve_spec]
    rw [hmk]
  | some cx =>
    have hcxmem : cx ∈ cols := hx cx rfl
    simp only [resolve_spec]
    rw [if_neg (fun h => h.2 hcxmem), hmk]

/-- The whitespace stripped by Python `str.strip()`. -/
def isPySpace (c : Char) : Bool :=
  c == ' ' || c == '\t' || c == '\n' || c == '\r' ||
    c == Char.ofNat 11 || c == Char.ofNat 12

/-- Remove the trailing run of characters satisfying `p` (the right half of
Python `strip`). -/
def dropEndWhile (p : Char → Bool) : List Char → List Char
  | [] => []
  | c :: cs =>
    match dropEndWhile p cs with
    | [] => if p c then [] else [c]
    | d :: ds => c :: d :: ds

/-- Python `text.strip()`. -/
def pyStrip (l : List Char) : List Char := dropEndWhile isPySpace (l.dropWhile isPySpace)

/-- The code-fence character. -/
def backquote : Char := Char.ofNat 96

/-- Python `text.strip(chr(96))`: strip leading and trailing backquotes. -/
def pyStripBq (l : List Char) : List Char :=
  dropEndWhile (fun c => c == backquote) (l.dropWhile (fun c => c == backquote))

/-- Lines 57-59 of `infer_spec_via_openai`: strip whitespace, strip the
code fence, strip again; when the remainder starts with the language tag
`json`, drop its four characters and strip once more.  The result is what
`json.loads` receives. -/
def extract_payload_text (l : List Char) : List Char :=
  let t3 := pyStrip (pyStripBq (pyStrip l))
  if "json".data.isPrefixOf t3 then pyStrip (t3.drop 4) else t3

mutual
/-- A well-formed JSON value (mutual with lists of elements and fields so
that all recursion stays structural). -/
inductive Json where
  | jNull
  | jBool (b : Bool)
  | jNum (n : Int)
  | jStr (s : String)
  | jArr (elems : JsonList)
  | jObj (fields : JsonFields)
inductive JsonList where
  | nil
  | cons (hd : Json) (tl : JsonList)
inductive JsonFields where
  | nil
  | cons (key : String) (val : Json) (tl : JsonFields)
end

def qmChar : Char := Char.ofNat 34

def bslash : Char := Char.ofNat 92

def obrace : Char := Char.ofNat 123

def cbrace : Char := Char.ofNat 125

def jsonEscapeChar (c : Char) : List Char :=
  if c == qmChar || c == bslash then [bslash, c] else [c]

def jsonEscape (l : List Char) : List Char :=
  l.foldr (fun c acc => jsonEscapeChar c ++ acc) []

def renderStr (s : String) : List Char := qmChar :: (jsonEscape s.data ++ [qmChar])

mutual
/-- The serialization of a JSON value (`json.dumps` shape; separators do
not matter to the claims, only that an object renders as the brace-wrapped
field list). -/
def renderJson : Json → List Char
  | .jNull => "null".data
  | .jBool true => "true".data
  | .jBool false => "false".data
  | .jNum n => (toString n).data
  | .jStr s => renderStr s
  | .jArr es => '[' :: (renderArr es ++ [']'])
  | .jObj fs => obrace :: (renderFields fs ++ [cbrace])
def renderArr : JsonList → List Char
  | .nil => []
  | .cons e .nil => renderJson e
  | .cons e tl => renderJson e ++ ',' :: renderArr tl
def renderFields : JsonFields → List Char
  | .nil => []
  | .cons k v .nil => renderStr k ++ ':' :: renderJson v
  | .cons k v tl => renderStr k ++ ':' :: renderJson v ++ ',' :: renderFields tl
end

lemma dropWhile_cons_neg (p : Char → Bool) (c : Char) (l : List Char) (hp : p c = false) :
    (c :: l).dropWhile p = c :: l := by
  simp [List.dropWhile_cons, hp]

lemma dropWhile_replicate_append (p : Char → Bool) (c : Char) (hp : p c = true)
    (m : ℕ) (l : List Char) :
    (List.replicate m c ++ l).dropWhile p = l.dropWhile p := by
  induction m with
  | zero => rfl
  | succ n ih =>
    rw [List.replicate_succ, List.cons_append]
    simp [List.dropWhile_cons, hp, ih]

lemma dropEndWhile_append_singleton_neg (p : Char → Bool) (a : Char) (hp : p a = false) :
    ∀ l : List Char, dropEndWhile p (l ++ [a]) = l ++ [a] := by
  intro l
  induction l with
  | nil => simp [dropEndWhile, hp]
  | cons c cs ih =>
    rw [List.cons_append]
    simp only [dropEndWhile]
    rw [ih]
    cases hcs : cs ++ [a] with
    | nil => exact absurd hcs (by simp)
    | cons d ds => rfl

lemma dropEndWhile_append_singleton_pos (p : Char → Bool) (a : Char) (hp : p a = true) :
    ∀ l : List Char, dropEndWhile p (l ++ [a]) = dropEndWhile p l := by
  intro l
  induction l with
  | nil => simp [dropEndWhile, hp]
  | cons c cs ih =>
    rw [List.cons_append]
    simp only [dropEndWhile]
    rw [ih]

lemma dropEndWhile_append_replicate_pos (p : Char → Bool) (c : Char) (hp : p c = true)
    (n : ℕ) (l : List Char) :
    dropEndWhile p (l ++ List.replicate n c) = dropEndWhile p l := by
  induction n with
  | zero => simp
  | succ n ih =>
    rw [List.replicate_succ', ← List.append_assoc,
      dropEndWhile_append_singleton_pos p c hp, ih]

lemma isPrefixOf_append_self (l r : List Char) : l.isPrefixOf (l ++ r) = true := by
  induction l with
  | nil => cases r <;> rfl
  | cons c cs ih =>
    show (c == c && cs.isPrefixOf (cs ++ r)) = true
    simp [ih]

/-- Stripping a fenced payload without a language tag recovers exactly the
brace-delimited body. -/
lemma extract_fenced_untagged (m k : ℕ) (mid : List Char) :
    extract_payload_text
      (List.replicate (m+1) backquote ++
        ('\n' :: obrace :: (mid ++ (cbrace :: '\n' :: List.replicate (k+1) backquote)))) =
      obrace :: (mid ++ [cbrace]) := by
  have hstep1 : pyStrip
      (List.replicate (m+1) backquote ++
        ('\n' :: obrace :: (mid ++ (cbrace :: '\n' :: List.replicate (k+1) backquote)))) =
      List.replicate (m+1) backquote ++
        ('\n' :: obrace :: (mid ++ (cbrace :: '\n' :: List.replicate (k+1) backquote))) := by
    unfold pyStrip
    have h1 : (List.replicate (m+1) backquote ++
        ('\n' :: obrace :: (mid ++ (cbrace :: '\n' :: List.replicate (k+1) backquote)))).dropWhile
          isPySpace =
        List.replicate (m+1) backquote ++
          ('\n' :: obrace :: (mid ++ (cbrace :: '\n' :: List.replicate (k+1) backquote))) := by
      rw [List.replicate_succ, List.cons_append]
      exact dropWhile_cons_neg _ _ _ (by decide)
    rw [h1]
    have hsh : List.replicate (m+1) backquote ++
        ('\n' :: obrace :: (mid ++ (cbrace :: '\n' :: List.replicate (k+1) backquote))) =
        (List.replicate (m+1) backquote ++
          ('\n' :: obrace :: (mid ++ (cbrace :: '\n' :: List.replicate k backquote)))) ++
          [backquote] := by
      simp [List.replicate_succ']
    rw [hsh, dropEndWhile_append_singleton_neg _ _ (by decide), ← hsh]
  have hstep2 : pyStripBq
      (List.replicate (m+1) backquote ++
        ('\n' :: obrace :: (mid ++ (cbrace :: '\n' :: List.replicate (k+1) backquote)))) =
      '\n' :: obrace :: (mid ++ [cbrace, '\n']) := by
    unfold pyStripBq
    rw [dropWhile_replicate_append _ _ (by decide),
      dropWhile_cons_neg _ _ _ (by decide)]
    have hsh2 : ('\n' :: obrace :: (mid ++ (cbrace :: '\n' :: List.replicate (k+1) backquote))) =
        ('\n' :: obrace :: (mid ++ [cbrace, '\n'])) ++ List.replicate (k+1) backquote := by
      simp
    rw [hsh2, dropEndWhile_append_replicate_pos _ _ (by decide)]
    have hsh3 : ('\n' :: obrace :: (mid ++ [cbrace, '\n'])) =
        ('\n' :: obrace :: (mid ++ [cbrace])) ++ ['\n'] := by
      simp
    rw [hsh3, dropEndWhile_append_singleton_neg _ _ (by decide), ← hsh3]
  have hstep3 : pyStrip ('\n' :: obrace :: (mid ++ [cbrace, '\n'])) =
      obrace :: (mid ++ [cbrace]) := by
    unfold pyStrip
    rw [List.dropWhile_cons, if_pos (by decide),
      dropWhile_cons_neg _ _ _ (by decide)]
    have hsh4 : obrace :: (mid ++ [cbrace, '\n']) =
        (obrace :: (mid ++ [cbrace])) ++ ['\n'] := by simp
    rw [hsh4, dropEndWhile_append_singleton_pos _ _ (by decide)]
    have hsh5 : obrace :: (mid ++ [cbrace]) = (obrace :: mid) ++ [cbrace] := by simp
    rw [hsh5, dropEndWhile_append_singleton_neg _ _ (by decide), ← hsh5]
  simp only [extract_payload_text]
  rw [hstep1, hstep2, hstep3]
  have hpref : ("json".data.isPrefixOf (obrace :: (mid ++ [cbrace]))) = false := by
    rw [show "json".data = 'j' :: ['s','o','n'] from rfl]
    show (('j' == obrace) && _) = false
    rw [show ('j' == obrace) = false from by decide, Bool.false_and]
  rw [if_neg (by simp [hpref])]

/-- Stripping a fenced payload with the `json` language tag after the
opening fence recovers exactly the brace-delimited body. -/
lemma extract_fenced_tagged (m k : ℕ) (mid : List Char) :
    extract_payload_text
      (List.replicate (m+1) backquote ++
        ('j' :: 's' :: 'o' :: 'n' ::
          '\n' :: obrace :: (mid ++ (cbrace :: '\n' :: List.replicate (k+1) backquote)))) =
      obrace :: (mid ++ [cbrace]) := by
  have hstep1 : pyStrip
      (List.replicate (m+1) backquote ++
        ('j' :: 's' :: 'o' :: 'n' ::
          '\n' :: obrace :: (mid ++ (cbrace :: '\n' :: List.replicate (k+1) backquote)))) =
      List.replicate (m+1) backquote ++
        ('j' :: 's' :: 'o' :: 'n' ::
          '\n' :: obrace :: (mid ++ (cbrace :: '\n' :: List.replicate (k+1) backquote))) := by
    unfold pyStrip
    have h1 : (List.replicate (m+1) backquote ++
        ('j' :: 's' :: 'o' :: 'n' ::
          '\n' :: obrace :: (mid ++ (cbrace :: '\n' :: List.replicate (k+1) backquote)))).dropWhile
          isPySpace =
        List.replicate (m+1) backquote ++
          ('j' :: 's' :: 'o' :: 'n' ::
            '\n' :: obrace :: (mid ++ (cbrace :: '\n' :: List.replicate (k+1) backquote))) := by
      rw [List.replicate_succ, List.cons_append]
      exact dropWhile_cons_neg _ _ _ (by decide)
    rw [h1]
    have hsh : List.replicate (m+1) backquote ++
        ('j' :: 's' :: 'o' :: 'n' ::
          '\n' :: obrace :: (mid ++ (cbrace :: '\n' :: List.replicate (k+1) backquote))) =
        (List.replicate (m+1) backquote ++
          ('j' :: 's' :: 'o' :: 'n' ::
            '\n' :: obrace :: (mid ++ (cbrace :: '\n' :: List.replicate k backquote)))) ++
          [backquote] := by
      simp [List.replicate_succ']
    rw [hsh, dropEndWhile_append_singleton_neg _ _ (by decide), ← hsh]
  have hstep2 : pyStripBq
      (List.replicate (m+1) backquote ++
        ('j' :: 's' :: 'o' :: 'n' ::
          '\n' :: obrace :: (mid ++ (cbrace :: '\n' :: List.replicate (k+1) backquote)))) =
      'j' :: 's' :: 'o' :: 'n' :: '\n' :: obrace :: (mid ++ [cbrace, '\n']) := by
    unfold pyStripBq
    rw [dropWhile_replicate_append _ _ (by decide),
      dropWhile_cons_neg _ _ _ (by decide)]
    have hsh2 : ('j' :: 's' :: 'o' :: 'n' ::
        '\n' :: obrace :: (mid ++ (cbrace :: '\n' :: List.replicate (k+1) backquote))) =
        ('j' :: 's' :: 'o' :: 'n' :: '\n' :: obrace :: (mid ++ [cbrace, '\n'])) ++
          List.replicate (k+1) backquote := by
      simp
    rw [hsh2, dropEndWhile_append_replicate_pos _ _ (by decide)]
    have hsh3 : ('j' :: 's' :: 'o' :: 'n' :: '\n' :: obrace :: (mid ++ [cbrace, '\n'])) =
        ('j' :: 's' :: 'o' :: 'n' :: '\n' :: obrace :: (mid ++ [cbrace])) ++ ['\n'] := by
      simp
    rw [hsh3, dropEndWhile_append_singleton_neg _ _ (by decide), ← hsh3]
  have hstep3 : pyStrip
      ('j' :: 's' :: 'o' :: 'n' :: '\n' :: obrace :: (mid ++ [cbrace, '\n'])) =
      'j' :: 's' :: 'o' :: 'n' :: '\n' :: obrace :: (mid ++ [cbrace]) := by
    unfold pyStrip
    rw [dropWhile_cons_neg _ _ _ (by decide)]
    have hsh4 : ('j' :: 's' :: 'o' :: 'n' :: '\n' :: obrace :: (mid ++ [cbrace, '\n'])) =
        ('j' :: 's' :: 'o' :: 'n' :: '\n' :: obrace :: (mid ++ [cbrace])) ++ ['\n'] := by
      simp
    rw [hsh4, dropEndWhile_append_singleton_pos _ _ (by decide)]
    have hsh5 : ('j' :: 's' :: 'o' :: 'n' :: '\n' :: obrace :: (mid ++ [cbrace])) =
        ('j' :: 's' :: 'o' :: 'n' :: '\n' :: obrace :: mid) ++ [cbrace] := by
      simp
    rw [hsh5, dropEndWhile_append_singleton_neg _ _ (by decide), ← hsh5]
  simp only [extract_payload_text]
  rw [hstep1, hstep2, hstep3]
  have hpref : ("json".data.isPrefixOf
      ('j' :: 's' :: 'o' :: 'n' :: '\n' :: obrace :: (mid ++ [cbrace]))) = true :=
    isPrefixOf_append_self "json".data ('\n' :: obrace :: (mid ++ [cbrace]))
  rw [if_pos hpref]
  have hdrop : ('j' :: 's' :: 'o' :: 'n' ::
      '\n' :: obrace :: (mid ++ [cbrace])).drop 4 =
      '\n' :: obrace :: (mid ++ [cbrace]) := rfl
  rw [hdrop]
  unfold pyStrip
  rw [List.dropWhile_cons, if_pos (by decide),
    dropWhile_cons_neg _ _ _ (by decide)]
  have hsh6 : obrace :: (mid ++ [cbrace]) = (obrace :: mid) ++ [cbrace] := by simp
  rw [hsh6, dropEndWhile_append_singleton_neg _ _ (by decide), ← hsh6]

/-- C9: a payload consisting of the serialization of a JSON object wrapped
in backquote code fences, optionally with the `json` language tag directly
after the opening fence, is stripped by the Intent Translator to exactly
the serialization itself — hence `json.loads` receives the same text, and
returns the same object, as when parsing the serialization directly. -/
theorem C9_fence_and_tag_stripping (fs : JsonFields) (m k : ℕ) (tag : Bool) :
    extract_payload_text
      (List.replicate (m+1) backquote ++
        ((if tag then "json".data else []) ++
          ('\n' :: (renderJson (Json.jObj fs) ++
            ('\n' :: List.replicate (k+1) backquote))))) =
      renderJson (Json.jObj fs) := by
  have hbody : renderJson (Json.jObj fs) = obrace :: (renderFields fs ++ [cbrace]) := by
    rw [renderJson]
  cases tag with
  | false =>
    rw [if_neg (by decide), List.nil_append, hbody]
    have hpay : List.replicate (m+1) backquote ++
        ('\n' :: ((obrace :: (renderFields fs ++ [cbrace])) ++
          ('\n' :: List.replicate (k+1) backquote))) =
        List.replicate (m+1) backquote ++
        ('\n' :: obrace :: (renderFields fs ++
          (cbrace :: '\n' :: List.replicate (k+1) backquote))) := by
      simp
    rw [hpay]
    exact extract_fenced_untagged m k (renderFields fs)
  | true =>
    rw [if_pos rfl, hbody, show "json".data = ['j','s','o','n'] from rfl]
    have hpay : (['j','s','o','n'] : List Char) ++
        ('\n' :: ((obrace :: (renderFields fs ++ [cbrace])) ++
          ('\n' :: List.replicate (k+1) backquote))) =
        'j' :: 's' :: 'o' :: 'n' ::
          '\n' :: obrace :: (renderFields fs ++
            (cbrace :: '\n' :: List.replicate (k+1) backquote)) := by
      simp
    rw [hpay]
    exact extract_fenced_tagged m k (renderFields fs)

theorem C1_unknown_x_column_witness :
    render_chart ⟨["Industry"], [[("Industry", Scalar.sStr "Water")]]⟩
      { chart_type := some "bar", x := some "BogusColumn", y := some "Count",
        color := none, agg := some "count", top_n := none,
        filters := some [⟨some "Industry", some "eq", Val.atom (Scalar.sStr "Water")⟩],
        title := some "t" } =
      .error (.unknownColumn "BogusColumn") :=
  C1_unknown_x_column _ _ "BogusColumn" rfl (by decide) (by decide) (by decide)

theorem C2_resolver_total_amended_witness :
    ∃ r, resolve_spec ["Industry"]
      { chart_type := some "PIE", x := none, y := some "Revenue",
        color := some "NoSuchColumn", agg := some "sum", top_n := some 5,
        filters := some [], title := none } = .ok r ∧
      r.chart_type ∈ SUPPORTED_CHARTS ∧
      (∀ s, r.color = some s → s ≠ "" → s ∈ ["Industry"]) ∧
      (r.y = "Count" ∨ r.y ∈ ["Industry"]) :=
  C2_resolver_total_amended ["Industry"] _ (fun _ hs _ => Option.noConfusion hs)

theorem C3_filter_engine_sound_witness :
    (_apply_filters
        ⟨["Industry", "Age"],
          [[("Industry", Scalar.sStr "Water"), ("Age", Scalar.sInt 4)],
           [("Industry", Scalar.sStr "Water"), ("Age", Scalar.sInt 7)],
           [("Industry", Scalar.sStr "Energy"), ("Age", Scalar.sInt 3)]]⟩
        [⟨some "Industry", some "eq", Val.atom (Scalar.sStr "Water")⟩,
         ⟨some "Age", some "between", Val.vList [Scalar.sInt 3, Scalar.sInt 5]⟩]).rows.length ≤
      ([[("Industry", Scalar.sStr "Water"), ("Age", Scalar.sInt 4)],
        [("Industry", Scalar.sStr "Water"), ("Age", Scalar.sInt 7)],
        [("Industry", Scalar.sStr "Energy"), ("Age", Scalar.sInt 3)]] : List Row).length ∧
    ∀ r ∈ (_apply_filters
        ⟨["Industry", "Age"],
          [[("Industry", Scalar.sStr "Water"), ("Age", Scalar.sInt 4)],
           [("Industry", Scalar.sStr "Water"), ("Age", Scalar.sInt 7)],
           [("Industry", Scalar.sStr "Energy"), ("Age", Scalar.sInt 3)]]⟩
        [⟨some "Industry", some "eq", Val.atom (Scalar.sStr "Water")⟩,
         ⟨some "Age", some "between", Val.vList [Scalar.sInt 3, Scalar.sInt 5]⟩]).rows,
      ∀ f ∈ [(⟨some "Industry", some "eq", Val.atom (Scalar.sStr "Water")⟩ : FilterPred),
             ⟨some "Age", some "between", Val.vList [Scalar.sInt 3, Scalar.sInt 5]⟩],
        rowSat f r = true :=
  C3_filter_engine_sound _ _ (by decide)

theorem C4_count_aggregation_witness :
    _aggregate
        ⟨["Industry"],
          [[("Industry", Scalar.sStr "Water")], [("Industry", Scalar.sStr "Water")],
           [("Industry", Scalar.sStr "Energy")]]⟩
        (some "Industry") (some "Count") none "count" =
      .ok (countAggregate
        ⟨["Industry"],
          [[("Industry", Scalar.sStr "Water")], [("Industry", Scalar.sStr "Water")],
           [("Industry", Scalar.sStr "Energy")]]⟩
        (group_cols_of (some "Industry") none), "Count") :=
  (C4_count_aggregation _ (some "Industry") (some "Count") none "count"
    (Or.inr (Or.inl rfl)) (by decide) (by decide) (by decide)).1

theorem C5_rank_truncate_spec_witness :
    (rank_truncate
        ⟨["Industry", "Count"],
          [[("Industry", Scalar.sStr "Water"), ("Count", Scalar.sInt 2)],
           [("Industry", Scalar.sStr "Energy"), ("Count", Scalar.sInt 1)]]⟩
        "Count" (some 1)).rows.length =
      min (1 : Int).toNat
        ([[("Industry", Scalar.sStr "Water"), ("Count", Scalar.sInt 2)],
          [("Industry", Scalar.sStr "Energy"), ("Count", Scalar.sInt 1)]] : List Row).length ∧
    rank_truncate
        ⟨["Industry", "Count"],
          [[("Industry", Scalar.sStr "Water"), ("Count", Scalar.sInt 2)],
           [("Industry", Scalar.sStr "Energy"), ("Count", Scalar.sInt 1)]]⟩
        "Count" none =
      ⟨["Industry", "Count"],
        [[("Industry", Scalar.sStr "Water"), ("Count", Scalar.sInt 2)],
         [("Industry", Scalar.sStr "Energy"), ("Count", Scalar.sInt 1)]]⟩ :=
  ⟨((C5_rank_truncate_spec _ "Count" (some 1)).1 1 rfl (by decide)).1,
   (C5_rank_truncate_spec _ "Count" none).2 (Or.inl rfl)⟩

theorem C6_between_semantics_witness :
    applyOneFilter ⟨["Age"], [[("Age", Scalar.sInt 2)], [("Age", Scalar.sInt 4)],
        [("Age", Scalar.sInt 6)]]⟩
      ⟨some "Age", some "between", Val.vList [Scalar.sInt 3, Scalar.sInt 5]⟩ =
      ⟨["Age"], ([[("Age", Scalar.sInt 2)], [("Age", Scalar.sInt 4)],
        [("Age", Scalar.sInt 6)]] : List Row).filter (fun r =>
          match getCell r "Age" with
          | Scalar.sInt z => decide (3 ≤ z ∧ z ≤ 5)
          | _ => false)⟩ ∧
    applyOneFilter ⟨["Age"], [[("Age", Scalar.sInt 2)], [("Age", Scalar.sInt 4)],
        [("Age", Scalar.sInt 6)]]⟩
      ⟨some "Age", some "between", Val.vList [Scalar.sInt 3]⟩ =
      ⟨["Age"], [[("Age", Scalar.sInt 2)], [("Age", Scalar.sInt 4)],
        [("Age", Scalar.sInt 6)]]⟩ :=
  ⟨(C6_between_semantics _ "Age" _ (by decide) (by decide)).1 3 5 rfl,
   (C6_between_semantics _ "Age" _ (by decide) (by decide)).2 (by decide)⟩

theorem C7_contains_amended_witness :
    applyOneFilter ⟨["City"], [[("City", Scalar.sStr "New York")],
        [("City", Scalar.sStr "Hanoi")]]⟩
      ⟨some "City", some "contains", Val.atom (Scalar.sStr "york")⟩ =
      ⟨["City"], ([[("City", Scalar.sStr "New York")],
        [("City", Scalar.sStr "Hanoi")]] : List Row).filter (fun r =>
          substring_contains_spec (pyStr (Val.atom (Scalar.sStr "york")))
            (pyStrScalar (getCell r "City")))⟩ :=
  C7_contains_amended _ "City" _ (by decide) (by decide)

theorem C8_resolver_idempotent_amended_witness :
    resolve_spec ["Industry"]
      { chart_type := some "bar", x := some "Industry", y := some "Count",
        color := none, agg := some "count", top_n := some 5, filters := some [],
        title := some "Thị phần" } =
      .ok { chart_type := "bar", x := some "Industry", y := "Count", color := none,
            agg := "count", top_n := some 5, filters := [], title := "Thị phần" } :=
  C8_resolver_idempotent_amended ["Industry"] "bar" (some "Industry") "Count" none
    "count" (some 5) [] "Thị phần" (by decide)
    (by intro s hs; injection hs with h; subst h; decide)
    (Or.inr rfl) (by decide)
    (fun _ hs => Option.noConfusion hs)
    (by decide) (by decide)

theorem C10_null_axes_raise_witness :
    render_chart ⟨["Industry"], [[("Industry", Scalar.sStr "Water")]]⟩
      { chart_type := some "line", x := none, y := some "Count", color := none,
        agg := some "count", top_n := none, filters := some [], title := none } =
      .error .noGroupKeys :=
  C10_null_axes_raise _ _ rfl rfl
